import Mathlib

/-!
Shallow embedding of the `randstat` crate (src/lib.rs).

The crate provides `RandStat`, a 100-cell table of status bytes built from a
list of `StatInit { percentage, value }` entries, and an `Iterator` whose
`next` returns `Some(self.cells[rng.gen::<usize>() % self.cells.len()])`.

Machine integers are modelled as `Nat`: `percentage` is a `usize`, `value`
is a `u8` (its byte range plays no role in the table-building logic, which
only copies values), and the random word drawn by `next` is a 64-bit
`usize`, so where the distribution of the drawn word matters we quantify
over `r < 2 ^ 64`.  Fallible construction (`Result<Self,
RandStatOverflowError>`) becomes `Except RandStatOverflowError RandStat`.
-/

namespace Randstat

/-- Embedding of `pub struct RandStatOverflowError {}` (src/lib.rs line 13):
the single error kind, carrying no payload. -/
structure RandStatOverflowError where
deriving DecidableEq

/-- Embedding of `pub struct StatInit` (src/lib.rs lines 69-72): one
initialization entry, a `percentage : usize` and a `value : u8`. -/
structure StatInit where
  percentage : Nat
  value : Nat
deriving DecidableEq

/-- Embedding of `pub struct RandStat` (src/lib.rs lines 64-66): the
container holding the 100-cell table `cells: [u8; 100]`. -/
structure RandStat where
  cells : List Nat
deriving DecidableEq

/-- The inner loop of `RandStat::new` (src/lib.rs lines 79-85):
`for _ in 0..init.percentage { if index >= cells.len() { return Err(..) }
cells[index] = init.value; index += 1; }`.  The fuel argument is the number
of remaining iterations of `0..init.percentage`; the bound check precedes
every write, exactly as in the source. -/
def writeEntryLoop (value : Nat) : Nat → List Nat → Nat →
    Except RandStatOverflowError (List Nat × Nat)
  | 0, cells, index => .ok (cells, index)
  | k + 1, cells, index =>
    if cells.length ≤ index then .error {}
    else writeEntryLoop value k (cells.set index value) (index + 1)

/-- The outer loop of `RandStat::new` (src/lib.rs lines 78-86):
`for init in init_vec { ... }`, threading `cells` and `index` through the
inner loop for each entry and propagating the overflow error. -/
def newLoop : List StatInit → List Nat → Nat →
    Except RandStatOverflowError (List Nat × Nat)
  | [], cells, index => .ok (cells, index)
  | init :: rest, cells, index =>
    match writeEntryLoop init.value init.percentage cells index with
    | .error e => .error e
    | .ok (c, i) => newLoop rest c i

/-- Embedding of `RandStat::new` (src/lib.rs lines 75-88): start from
`let mut cells = [0; 100]; let mut index: usize = 0;`, run both loops, and
on success return `Ok(RandStat { cells })`. -/
def RandStat.new (init_vec : List StatInit) :
    Except RandStatOverflowError RandStat :=
  match newLoop init_vec (List.replicate 100 0) 0 with
  | .error e => .error e
  | .ok (cells, _) => .ok { cells := cells }

/-- Embedding of `impl Default for RandStat` (src/lib.rs lines 91-95):
`RandStat { cells: [0; 100] }`. -/
def RandStat.default : RandStat :=
  { cells := List.replicate 100 0 }

/-- The index computation of `Iterator::next` (src/lib.rs line 103):
`let index: usize = rng.gen::<usize>() % self.cells.len();`, with the
random word `r` made explicit. -/
def RandStat.sampleIndex (rs : RandStat) (r : Nat) : Nat :=
  r % rs.cells.length

/-- Embedding of `Iterator::next` (src/lib.rs lines 101-105) with the
random word `r` made explicit: it returns `Some(self.cells[index])` and
leaves the receiver unchanged.  Array indexing is modelled by `·[·]?`, so
an out-of-bounds access (a Rust panic) would surface as `none`; the state
after the call is returned alongside the item. -/
def RandStat.next (rs : RandStat) (r : Nat) : Option Nat × RandStat :=
  (rs.cells[rs.sampleIndex r]?, rs)

/-- The sum of the entries' percentages: total number of cells the entry
list claims. -/
def sumPercent (l : List StatInit) : Nat :=
  (l.map (fun e => e.percentage)).sum

/-- The value the spec assigns to slot `i`: walk the entries in order,
and return the value of the entry whose cumulative-percentage range
contains `i`, or 0 if `i` lies beyond the cumulative sum. -/
def specSlot : List StatInit → Nat → Nat
  | [], _ => 0
  | e :: rest, i => if i < e.percentage then e.value else specSlot rest (i - e.percentage)

/-- The block of cells an entry list writes: each entry, in order,
contributes `percentage` copies of its `value`. -/
def buildCells : List StatInit → List Nat
  | [] => []
  | e :: rest => List.replicate e.percentage e.value ++ buildCells rest

/-- Total percentage an entry list assigns to the value `v`. -/
def assignedSlots (l : List StatInit) (v : Nat) : Nat :=
  (l.map (fun e => if e.value = v then e.percentage else 0)).sum

/-- Write-counting instrumentation of the inner loop of `RandStat::new`:
the same computation as `writeEntryLoop`, paired with the number of cell
writes (`cells[index] = init.value`) it performs. -/
def writeEntryLoopW (value : Nat) : Nat → List Nat → Nat →
    (Except RandStatOverflowError (List Nat × Nat)) × Nat
  | 0, cells, index => (.ok (cells, index), 0)
  | k + 1, cells, index =>
    if cells.length ≤ index then (.error {}, 0)
    else
      let res := writeEntryLoopW value k (cells.set index value) (index + 1)
      (res.1, res.2 + 1)

/-- Write-counting instrumentation of the outer loop of `RandStat::new`:
the same computation as `newLoop`, paired with the total number of cell
writes it performs. -/
def newLoopW : List StatInit → List Nat → Nat →
    (Except RandStatOverflowError (List Nat × Nat)) × Nat
  | [], cells, index => (.ok (cells, index), 0)
  | init :: rest, cells, index =>
    let w := writeEntryLoopW init.value init.percentage cells index
    match w.1 with
    | .error e => (.error e, w.2)
    | .ok (c, i) =>
      let res := newLoopW rest c i
      (res.1, w.2 + res.2)

/-- The number of cell writes performed by a run of `RandStat::new`. -/
def newWrites (l : List StatInit) : Nat :=
  (newLoopW l (List.replicate 100 0) 0).2

/-- When `index + k` cells fit, the inner loop succeeds: it returns the
advanced cursor, preserves the length, sets cells `[index, index + k)` to
`value` and leaves all other cells unchanged. -/
theorem writeEntryLoop_ok (value k : Nat) :
    ∀ (cells : List Nat) (index : Nat), index + k ≤ cells.length →
    ∃ cs : List Nat, writeEntryLoop value k cells index = .ok (cs, index + k) ∧
      cs.length = cells.length ∧
      ∀ i : Nat, cs[i]? = if index ≤ i ∧ i < index + k then some value else cells[i]? := by
  induction k with
  | zero =>
    intro cells index _
    refine ⟨cells, ?_, rfl, fun i => ?_⟩
    · simp [writeEntryLoop]
    · rw [if_neg]; omega
  | succ k ih =>
    intro cells index h
    have hidx : index < cells.length := by omega
    obtain ⟨cs, hc, hlen, hget⟩ :=
      ih (cells.set index value) (index + 1)
        (by rw [List.length_set]; omega)
    refine ⟨cs, ?_, ?_, ?_⟩
    · have harith : index + (k + 1) = index + 1 + k := by omega
      rw [harith, writeEntryLoop, if_neg (by omega), hc]
    · rw [hlen, List.length_set]
    · intro i
      rw [hget i]
      by_cases h1 : index + 1 ≤ i ∧ i < index + 1 + k
      · rw [if_pos h1, if_pos (by omega)]
      · rw [if_neg h1]
        by_cases h2 : i = index
        · subst h2
          rw [if_pos (by omega), List.getElem?_set_eq_of_lt value hidx]
        · rw [List.getElem?_set_ne (fun h => h2 h.symm), if_neg (by omega)]

/-- When `index + k` cells do not fit (and the cursor is in range, as it
always is in `RandStat::new`), the inner loop hits the bound check and
returns the overflow error. -/
theorem writeEntryLoop_err (value k : Nat) :
    ∀ (cells : List Nat) (index : Nat), index ≤ cells.length →
    cells.length < index + k →
    writeEntryLoop value k cells index = .error {} := by
  induction k with
  | zero => intro cells index h1 h2; omega
  | succ k ih =>
    intro cells index h1 h2
    by_cases h : cells.length ≤ index
    · rw [writeEntryLoop, if_pos h]
    · rw [writeEntryLoop, if_neg h]
      exact ih (cells.set index value) (index + 1)
        (by rw [List.length_set]; omega)
        (by rw [List.length_set]; omega)

/-- Beyond the cumulative percentage sum, `specSlot` is the default 0. -/
theorem specSlot_of_le (l : List StatInit) :
    ∀ i : Nat, sumPercent l ≤ i → specSlot l i = 0 := by
  induction l with
  | nil => intro i _; rfl
  | cons e rest ih =>
    intro i hi
    have hsum : sumPercent (e :: rest) = e.percentage + sumPercent rest := by
      simp [sumPercent]
    rw [specSlot, if_neg (by omega)]
    exact ih (i - e.percentage) (by omega)

/-- When the percentages fit in the remaining cells, the outer loop
succeeds: it returns the cursor advanced by the total percentage,
preserves the length, writes `specSlot` values into the claimed range and
leaves all other cells unchanged. -/
theorem newLoop_ok (l : List StatInit) :
    ∀ (cells : List Nat) (index : Nat), index + sumPercent l ≤ cells.length →
    ∃ cs : List Nat, newLoop l cells index = .ok (cs, index + sumPercent l) ∧
      cs.length = cells.length ∧
      ∀ i : Nat, cs[i]? =
        if index ≤ i ∧ i < index + sumPercent l then some (specSlot l (i - index))
        else cells[i]? := by
  induction l with
  | nil =>
    intro cells index _
    refine ⟨cells, ?_, rfl, fun i => ?_⟩
    · simp [newLoop, sumPercent]
    · rw [if_neg (by simp [sumPercent])]
  | cons e rest ih =>
    intro cells index h
    have hsum : sumPercent (e :: rest) = e.percentage + sumPercent rest := by
      simp [sumPercent]
    obtain ⟨c1, hc1, hlen1, hget1⟩ :=
      writeEntryLoop_ok e.value e.percentage cells index (by omega)
    obtain ⟨c2, hc2, hlen2, hget2⟩ := ih c1 (index + e.percentage) (by omega)
    refine ⟨c2, ?_, by omega, fun i => ?_⟩
    · have harith : index + sumPercent (e :: rest)
          = index + e.percentage + sumPercent rest := by omega
      rw [harith, newLoop, hc1]
      exact hc2
    · rw [hget2 i]
      by_cases h1 : index + e.percentage ≤ i ∧ i < index + e.percentage + sumPercent rest
      · rw [if_pos h1, if_pos (by omega), specSlot, if_neg (by omega)]
        have harith : i - index - e.percentage = i - (index + e.percentage) := by omega
        rw [← harith]
      · rw [if_neg h1, hget1 i]
        by_cases h2 : index ≤ i ∧ i < index + e.percentage
        · rw [if_pos h2, if_pos (by omega), specSlot, if_pos (by omega)]
        · rw [if_neg h2, if_neg (by omega)]

/-- When the percentages overflow the remaining cells (and the cursor is
in range), the outer loop returns the overflow error. -/
theorem newLoop_err (l : List StatInit) :
    ∀ (cells : List Nat) (index : Nat), index ≤ cells.length →
    cells.length < index + sumPercent l →
    newLoop l cells index = .error {} := by
  induction l with
  | nil =>
    intro cells index h1 h2
    simp [sumPercent] at h2
    omega
  | cons e rest ih =>
    intro cells index h1 h2
    have hsum : sumPercent (e :: rest) = e.percentage + sumPercent rest := by
      simp [sumPercent]
    by_cases h : cells.length < index + e.percentage
    · rw [newLoop, writeEntryLoop_err e.value e.percentage cells index h1 h]
    · obtain ⟨c1, hc1, hlen1, _⟩ :=
        writeEntryLoop_ok e.value e.percentage cells index (by omega)
      rw [newLoop, hc1]
      exact ih c1 (index + e.percentage) (by omega) (by omega)

/-- Success characterization of `RandStat.new`: when the percentages sum
to at most 100 it returns a 100-cell table whose cell `i` is
`specSlot l i`. -/
theorem new_ok (l : List StatInit) (h : sumPercent l ≤ 100) :
    ∃ rs : RandStat, RandStat.new l = .ok rs ∧ rs.cells.length = 100 ∧
      ∀ i : Nat, rs.cells[i]? = if i < 100 then some (specSlot l i) else none := by
  obtain ⟨cs, hc, hlen, hget⟩ :=
    newLoop_ok l (List.replicate 100 0) 0 (by simpa using h)
  refine ⟨⟨cs⟩, ?_, by simpa using hlen, fun i => ?_⟩
  · rw [RandStat.new, hc]
  · rw [hget i]
    by_cases h1 : 0 ≤ i ∧ i < 0 + sumPercent l
    · rw [if_pos h1, if_pos (by omega)]
      simp
    · rw [if_neg h1, List.getElem?_replicate]
      by_cases h2 : i < 100
      · rw [if_pos h2, if_pos h2, specSlot_of_le l i (by omega)]
      · rw [if_neg h2, if_neg h2]

/-- Failure characterization of `RandStat.new`: when the percentages sum
to more than 100 it returns the overflow error. -/
theorem new_err (l : List StatInit) (h : 100 < sumPercent l) :
    RandStat.new l = .error {} := by
  rw [RandStat.new,
    newLoop_err l (List.replicate 100 0) 0 (by simp) (by simpa using h)]

theorem length_buildCells (l : List StatInit) :
    (buildCells l).length = sumPercent l := by
  induction l with
  | nil => rfl
  | cons e rest ih => simp [buildCells, sumPercent, ih]

theorem getElem?_buildCells (l : List StatInit) :
    ∀ i : Nat, (buildCells l)[i]? =
      if i < sumPercent l then some (specSlot l i) else none := by
  induction l with
  | nil =>
    intro i
    simp [buildCells, sumPercent]
  | cons e rest ih =>
    intro i
    have hsum : sumPercent (e :: rest) = e.percentage + sumPercent rest := by
      simp [sumPercent]
    rw [buildCells, List.getElem?_append, List.length_replicate,
      List.getElem?_replicate, specSlot]
    by_cases h1 : i < e.percentage
    · rw [if_pos h1, if_pos h1, if_pos (by omega), if_pos h1]
    · rw [if_neg h1, if_neg h1, ih (i - e.percentage)]
      by_cases h2 : i - e.percentage < sumPercent rest
      · rw [if_pos h2, if_pos (by omega)]
      · rw [if_neg h2, if_neg (by omega)]

theorem count_buildCells (l : List StatInit) (v : Nat) :
    (buildCells l).count v = assignedSlots l v := by
  induction l with
  | nil => rfl
  | cons e rest ih =>
    rw [buildCells, List.count_append, ih, List.count_replicate]
    have hsum : assignedSlots (e :: rest) v
        = (if e.value = v then e.percentage else 0) + assignedSlots rest v := by
      simp [assignedSlots]
    rw [hsum]
    by_cases h : e.value = v
    · simp [h]
    · simp [h]

/-- Closed form of a successful construction: the table is the entries'
replicated blocks followed by default zeros. -/
theorem new_closed_form (l : List StatInit) (rs : RandStat)
    (hsum : sumPercent l ≤ 100) (h : RandStat.new l = .ok rs) :
    rs.cells = buildCells l ++ List.replicate (100 - sumPercent l) 0 := by
  obtain ⟨rs2, hok, hlen, hget⟩ := new_ok l hsum
  rw [h] at hok
  obtain rfl : rs = rs2 := by
    cases hok
    rfl
  refine List.ext_getElem? fun i => ?_
  rw [hget i, List.getElem?_append, length_buildCells, getElem?_buildCells,
    List.getElem?_replicate]
  by_cases h1 : i < sumPercent l
  · rw [if_pos h1, if_pos h1, if_pos (by omega)]
  · rw [if_neg h1]
    by_cases h2 : i < 100
    · rw [if_pos h2, if_pos (by omega), specSlot_of_le l i (by omega)]
    · rw [if_neg h2, if_neg (by omega)]

/-- Count of each value in a successfully constructed table: the assigned
percentages, plus the unassigned remainder when the value is 0. -/
theorem count_new (l : List StatInit) (rs : RandStat)
    (hsum : sumPercent l ≤ 100) (h : RandStat.new l = .ok rs) :
    ∀ v : Nat, rs.cells.count v =
      assignedSlots l v + if v = 0 then 100 - sumPercent l else 0 := by
  intro v
  rw [new_closed_form l rs hsum h, List.count_append, count_buildCells,
    List.count_replicate]
  by_cases h0 : v = 0
  · simp [h0]
  · simp [h0, Ne.symm h0]

/-- Any successfully constructed instance has a 100-cell table. -/
theorem new_length (l : List StatInit) (rs : RandStat)
    (h : RandStat.new l = .ok rs) : rs.cells.length = 100 := by
  by_cases hs : sumPercent l ≤ 100
  · obtain ⟨rs2, hok, hlen, _⟩ := new_ok l hs
    rw [h] at hok
    obtain rfl : rs = rs2 := by
      cases hok
      rfl
    exact hlen
  · rw [new_err l (by omega)] at h
    cases h

/-- Size of a residue class of `· % 100` below `n`. -/
theorem card_filter_mod100 (n : Nat) (i : Nat) (hi : i < 100) :
    ((Finset.range n).filter fun r => r % 100 = i).card
      = n / 100 + if i < n % 100 then 1 else 0 := by
  induction n with
  | zero => simp
  | succ n ih =>
    rw [Finset.range_succ, Finset.filter_insert]
    by_cases hmod : n % 100 = i
    · rw [if_pos hmod, Finset.card_insert_of_not_mem (by simp), ih]
      split_ifs <;> omega
    · rw [if_neg hmod, ih]
      split_ifs <;> omega

/-- Size of the preimage class of slot `i` under the index computation of
`next`, over the `2 ^ 64` possible random words: residues `0` to `15` get
one extra word because `2 ^ 64 % 100 = 16`. -/
theorem card_sampleIndex_class (i : Nat) (hi : i < 100) :
    ((Finset.range (2 ^ 64)).filter fun r => RandStat.default.sampleIndex r = i).card
      = 2 ^ 64 / 100 + if i < 16 then 1 else 0 := by
  have hfun : ∀ r : Nat, RandStat.default.sampleIndex r = r % 100 := fun r => rfl
  simp only [hfun]
  rw [card_filter_mod100 (2 ^ 64) i hi]
  norm_num

/-- The instrumented inner loop computes the same result as the inner
loop, performs at most the remaining number of cells in writes, and on
success performs exactly `k` writes. -/
theorem writeEntryLoopW_spec (value k : Nat) :
    ∀ (cells : List Nat) (index : Nat),
      (writeEntryLoopW value k cells index).1 = writeEntryLoop value k cells index ∧
      (writeEntryLoopW value k cells index).2 ≤ cells.length - index ∧
      (index + k ≤ cells.length → (writeEntryLoopW value k cells index).2 = k) := by
  induction k with
  | zero =>
    intro cells index
    exact ⟨rfl, by simp [writeEntryLoopW], fun _ => rfl⟩
  | succ k ih =>
    intro cells index
    by_cases h : cells.length ≤ index
    · rw [writeEntryLoopW, writeEntryLoop, if_pos h, if_pos h]
      exact ⟨rfl, by simp, fun hk => by omega⟩
    · obtain ⟨ha, hb, hc⟩ := ih (cells.set index value) (index + 1)
      rw [writeEntryLoopW, writeEntryLoop, if_neg h, if_neg h]
      refine ⟨ha, ?_, fun hk => ?_⟩
      · rw [List.length_set] at hb
        simp only
        omega
      · rw [List.length_set] at hc
        simp only
        rw [hc (by omega)]

/-- The instrumented outer loop computes the same result as the outer
loop and performs at most `cells.length - index` writes. -/
theorem newLoopW_spec (l : List StatInit) :
    ∀ (cells : List Nat) (index : Nat), index ≤ cells.length →
      (newLoopW l cells index).1 = newLoop l cells index ∧
      (newLoopW l cells index).2 ≤ cells.length - index := by
  induction l with
  | nil => intro cells index _; exact ⟨rfl, by simp [newLoopW]⟩
  | cons e rest ih =>
    intro cells index hidx
    obtain ⟨ha, hb, hc⟩ := writeEntryLoopW_spec e.value e.percentage cells index
    by_cases hfit : index + e.percentage ≤ cells.length
    · obtain ⟨cs, hok, hlen, _⟩ := writeEntryLoop_ok e.value e.percentage cells index hfit
      obtain ⟨ha2, hb2⟩ := ih cs (index + e.percentage) (by omega)
      rw [newLoopW, newLoop, ha, hok]
      simp only
      rw [hc hfit]
      refine ⟨ha2, ?_⟩
      rw [hlen] at hb2
      omega
    · rw [newLoopW, newLoop, ha,
        writeEntryLoop_err e.value e.percentage cells index hidx (by omega)]
      exact ⟨rfl, hb⟩

/-- Claim C1: for every entry list, `RandStat.new` succeeds exactly when
the percentages sum to at most 100 (and then the table has length 100),
and fails with the overflow error exactly when the sum exceeds 100, in
which case no instance is produced. -/
theorem claim_C1 (l : List StatInit) :
    (sumPercent l ≤ 100 →
      ∃ rs : RandStat, RandStat.new l = .ok rs ∧ rs.cells.length = 100) ∧
    (100 < sumPercent l → RandStat.new l = .error {}) := by
  constructor
  · intro h
    obtain ⟨rs, hok, hlen, _⟩ := new_ok l h
    exact ⟨rs, hok, hlen⟩
  · exact new_err l

/-- Witness for C1 at the concrete lists `[{60, 1}, {40, 2}]` (sum 100,
succeeds) and `[{60, 1}, {41, 2}]` (sum 101, fails). -/
theorem claim_C1_witness :
    (∃ rs : RandStat, RandStat.new [⟨60, 1⟩, ⟨40, 2⟩] = .ok rs ∧
      rs.cells.length = 100) ∧
    RandStat.new [⟨60, 1⟩, ⟨41, 2⟩] = .error {} :=
  ⟨(claim_C1 [⟨60, 1⟩, ⟨40, 2⟩]).1 (by decide),
   (claim_C1 [⟨60, 1⟩, ⟨41, 2⟩]).2 (by decide)⟩

/-- Claim C2: a successful construction fills the table by a cursor from
slot 0: the entries' blocks in list order followed by default zeros;
equivalently, cell `i` holds `specSlot l i`, the value of the entry whose
cumulative-percentage range contains `i`, and `specSlot` is 0 at or past
the cumulative sum. -/
theorem claim_C2 (l : List StatInit) (h : sumPercent l ≤ 100) :
    ∃ rs : RandStat, RandStat.new l = .ok rs ∧
      rs.cells = buildCells l ++ List.replicate (100 - sumPercent l) 0 ∧
      (∀ i : Nat, i < 100 → rs.cells[i]? = some (specSlot l i)) ∧
      (∀ i : Nat, sumPercent l ≤ i → specSlot l i = 0) := by
  obtain ⟨rs, hok, hlen, hget⟩ := new_ok l h
  refine ⟨rs, hok, new_closed_form l rs h hok, fun i hi => ?_, specSlot_of_le l⟩
  rw [hget i, if_pos hi]

/-- Witness for C2 at the concrete list `[{30, 5}]`. -/
theorem claim_C2_witness :
    ∃ rs : RandStat, RandStat.new [⟨30, 5⟩] = .ok rs ∧
      rs.cells = buildCells [⟨30, 5⟩] ++
        List.replicate (100 - sumPercent [⟨30, 5⟩]) 0 ∧
      (∀ i : Nat, i < 100 → rs.cells[i]? = some (specSlot [⟨30, 5⟩] i)) ∧
      (∀ i : Nat, sumPercent [⟨30, 5⟩] ≤ i → specSlot [⟨30, 5⟩] i = 0) :=
  claim_C2 [⟨30, 5⟩] (by decide)

/-- Counterexample to C3 as stated: the index computation `r % 100` of
`next` does not split the `2 ^ 64` possible random words into 100 equal
preimage classes — the classes of slots 0 and 99 have different sizes. -/
theorem claim_C3_counterexample :
    ¬ (∀ i : Nat, i < 100 → ∀ j : Nat, j < 100 →
      ((Finset.range (2 ^ 64)).filter
        fun r => RandStat.default.sampleIndex r = i).card =
      ((Finset.range (2 ^ 64)).filter
        fun r => RandStat.default.sampleIndex r = j).card) := by
  intro hall
  have h0 := hall 0 (by norm_num) 99 (by norm_num)
  rw [card_sampleIndex_class 0 (by norm_num),
    card_sampleIndex_class 99 (by norm_num)] at h0
  norm_num at h0

/-- Claim C3 (amended): the index `r % 100` drawn by `next` is only
nearly uniform over the `2 ^ 64` possible random words: since
`2 ^ 64 % 100 = 16`, each slot `i < 16` is hit by `2 ^ 64 / 100 + 1`
words and each slot `16 ≤ i < 100` by `2 ^ 64 / 100` words. -/
theorem claim_C3 (i : Nat) (hi : i < 100) :
    ((Finset.range (2 ^ 64)).filter
      fun r => RandStat.default.sampleIndex r = i).card
      = 2 ^ 64 / 100 + if i < 16 then 1 else 0 :=
  card_sampleIndex_class i hi

/-- Witness for C3 (amended) at slot 0. -/
theorem claim_C3_witness :
    ((Finset.range (2 ^ 64)).filter
      fun r => RandStat.default.sampleIndex r = 0).card
      = 2 ^ 64 / 100 + if (0 : Nat) < 16 then 1 else 0 :=
  claim_C3 0 (by norm_num)

/-- Claim C4: in a successful construction, each value `v` occupies
exactly `assignedSlots l v` cells, plus the `100 - sumPercent l`
unassigned cells when `v = 0`; under a uniformly distributed index the
sampling probability of `v` is therefore this count out of 100. -/
theorem claim_C4 (l : List StatInit) (h : sumPercent l ≤ 100) :
    ∃ rs : RandStat, RandStat.new l = .ok rs ∧
      ∀ v : Nat, rs.cells.count v =
        assignedSlots l v + if v = 0 then 100 - sumPercent l else 0 := by
  obtain ⟨rs, hok, _, _⟩ := new_ok l h
  exact ⟨rs, hok, count_new l rs h hok⟩

/-- Witness for C4 at the concrete list `[{50, 7}]`. -/
theorem claim_C4_witness :
    ∃ rs : RandStat, RandStat.new [⟨50, 7⟩] = .ok rs ∧
      ∀ v : Nat, rs.cells.count v =
        assignedSlots [⟨50, 7⟩] v +
          if v = 0 then 100 - sumPercent [⟨50, 7⟩] else 0 :=
  claim_C4 [⟨50, 7⟩] (by decide)

/-- Claim C5: sampling is total — on every constructed instance and for
every random word, `next` returns `some` value (the selected index is
always below 100, hence lands on a defined cell). -/
theorem claim_C5 (l : List StatInit) (rs : RandStat) (r : Nat)
    (h : RandStat.new l = .ok rs) :
    (∃ v : Nat, (rs.next r).1 = some v) ∧ rs.sampleIndex r < 100 := by
  have hlen := new_length l rs h
  have hidx : rs.sampleIndex r < 100 := by
    rw [RandStat.sampleIndex, hlen]
    omega
  have hlt : rs.sampleIndex r < rs.cells.length := by
    rw [hlen]
    exact hidx
  refine ⟨⟨rs.cells.get ⟨rs.sampleIndex r, hlt⟩, ?_⟩, hidx⟩
  show rs.cells[rs.sampleIndex r]? = _
  rw [List.getElem?_eq_getElem hlt]
  rfl

/-- Witness for C5 on the instance built from the empty list, with the
random word 7. -/
theorem claim_C5_witness :
    (∃ v : Nat,
      ((⟨List.replicate 100 0⟩ : RandStat).next 7).1 = some v) ∧
    (⟨List.replicate 100 0⟩ : RandStat).sampleIndex 7 < 100 :=
  claim_C5 [] ⟨List.replicate 100 0⟩ 7 rfl

set_option maxRecDepth 4000 in
/-- Claim C6: the default construction is the all-zero 100-cell table,
and it coincides with the table built from the empty entry list and with
the table built from the single entry `{100, 0}`. -/
theorem claim_C6 :
    RandStat.default.cells = List.replicate 100 0 ∧
    (RandStat.new []).map RandStat.cells = .ok RandStat.default.cells ∧
    (RandStat.new [⟨100, 0⟩]).map RandStat.cells = .ok RandStat.default.cells := by
  refine ⟨rfl, rfl, ?_⟩
  rfl

/-- Claim C7: sampling mutates no state — the table (and the whole
instance) after a call to `next` is the same as before the call. -/
theorem claim_C7 (rs : RandStat) (r : Nat) :
    (rs.next r).2 = rs ∧ (rs.next r).2.cells = rs.cells :=
  ⟨rfl, rfl⟩

/-- Claim C8: construction succeeds on an entry list and on any
permutation of it alike, and the two tables hold every value the same
number of times, so the sampling distribution is unaffected by entry
order. -/
theorem claim_C8 (l1 l2 : List StatInit) (hp : l1.Perm l2)
    (h : sumPercent l1 ≤ 100) :
    ∃ rs1 rs2 : RandStat, RandStat.new l1 = .ok rs1 ∧
      RandStat.new l2 = .ok rs2 ∧
      ∀ v : Nat, rs1.cells.count v = rs2.cells.count v := by
  have hsum2 : sumPercent l2 = sumPercent l1 := by
    rw [sumPercent, sumPercent]
    exact (List.Perm.sum_eq (hp.map fun e => e.percentage)).symm
  obtain ⟨rs1, hok1, _, _⟩ := new_ok l1 h
  obtain ⟨rs2, hok2, _, _⟩ := new_ok l2 (by omega)
  refine ⟨rs1, rs2, hok1, hok2, fun v => ?_⟩
  have hassigned : assignedSlots l1 v = assignedSlots l2 v := by
    rw [assignedSlots, assignedSlots]
    exact List.Perm.sum_eq (hp.map fun e => if e.value = v then e.percentage else 0)
  rw [count_new l1 rs1 h hok1 v, count_new l2 rs2 (by omega) hok2 v, hsum2,
    hassigned]

/-- Witness for C8 on the list `[{10, 1}, {20, 2}]` and its swap. -/
theorem claim_C8_witness :
    ∃ rs1 rs2 : RandStat, RandStat.new [⟨10, 1⟩, ⟨20, 2⟩] = .ok rs1 ∧
      RandStat.new [⟨20, 2⟩, ⟨10, 1⟩] = .ok rs2 ∧
      ∀ v : Nat, rs1.cells.count v = rs2.cells.count v :=
  claim_C8 [⟨10, 1⟩, ⟨20, 2⟩] [⟨20, 2⟩, ⟨10, 1⟩]
    (List.Perm.swap (⟨20, 2⟩ : StatInit) (⟨10, 1⟩ : StatInit) []) (by decide)

/-- Claim C9: construction is total and performs at most 100 cell writes
for every entry list, however large the percentages: the instrumented
run agrees with `newLoop` and its write count is bounded by 100. -/
theorem claim_C9 (l : List StatInit) :
    (newLoopW l (List.replicate 100 0) 0).1 =
      newLoop l (List.replicate 100 0) 0 ∧
    newWrites l ≤ 100 := by
  obtain ⟨ha, hb⟩ := newLoopW_spec l (List.replicate 100 0) 0 (by simp)
  refine ⟨ha, ?_⟩
  rw [newWrites]
  simpa using hb

/-- Claim C10: with the random word explicit, sampling is deterministic —
two instances with equal tables return the same result, namely the table
entry at index `r % 100` for a 100-cell table. -/
theorem claim_C10 (rs1 rs2 : RandStat) (r : Nat)
    (h : rs1.cells = rs2.cells) (hlen : rs1.cells.length = 100) :
    rs1.next r = rs2.next r ∧ (rs1.next r).1 = rs1.cells[r % 100]? := by
  obtain ⟨c1⟩ := rs1
  obtain ⟨c2⟩ := rs2
  cases h
  refine ⟨rfl, ?_⟩
  show c1[r % c1.length]? = c1[r % 100]?
  rw [show c1.length = 100 from hlen]

/-- Witness for C10 on two copies of the default instance with the
random word 123. -/
theorem claim_C10_witness :
    RandStat.default.next 123 = RandStat.default.next 123 ∧
    (RandStat.default.next 123).1 = RandStat.default.cells[123 % 100]? :=
  claim_C10 RandStat.default RandStat.default 123 rfl rfl

end Randstat
